import Mathlib

/-!
Verification of the span-tracking engine of `crates/sandbox/src/main.rs`.

The development shallowly embeds the core of the program:

* the span translator: the diff-line callback passed to `repo.diff_blobs`
  (`main.rs` lines 128-152), which moves a byte span `[start, end)` backwards
  through one revision diff;
* the backward walk `tracking` (`main.rs` lines 103-209), with the repository
  and the structural parser supplied as abstract collaborators, exactly as the
  specification scopes them out;
* the revision selector closure (`main.rs` lines 83-101) together with
  `match_with_parent` (`main.rs` lines 56-64);
* the change collector: the `HashMap::insert` / `sorted_unstable_by_key`
  pipeline (`main.rs` lines 192-204).

Machine integers: `start`, `end`, `start_move`, `end_move` are Rust `usize`
values.  They are modelled as `Int` so that the value of the subtraction
`start_move -= len` is its mathematical value; a negative model value
corresponds to a debug-mode panic (overflow check) or a release-mode
wraparound far beyond any blob length in the Rust program.  The theorems
about the translator therefore either exhibit such a negative value (the
C1 counterexample) or carry hypotheses under which every intermediate
bound provably stays non-negative, where the `Int` model and the `usize`
program coincide step by step.

Abort path of the enumeration: the line callback returns
`content_offset <= end` (`main.rs` line 151).  When it returns `false`,
git2 converts the non-zero callback return into an error and `diff_blobs`
returns `Err`, which the `?` at `main.rs` line 153 propagates: the span is
never updated and the walk aborts.  `diffAborts` decides whether a line
list triggers this, and `translateChecked` is the outcome of the whole
`diff_blobs` call as the program sees it — an error when some enumerated
line lies beyond `end`, the moved span otherwise.  `translateLines` alone
computes only the accumulated moves of the lines the callback saw.
-/

namespace Sandbox

/-- Tag of one diff line delivered to the `diff_blobs` line callback,
mirroring `git2::DiffLineType` restricted to the cases the callback
distinguishes (`main.rs` lines 132-149; every other tag falls into the
catch-all arm and is modelled as `context`). -/
inductive DiffLineType where
  | addition
  | deletion
  | context
deriving DecidableEq, Repr

/-- One diff line as seen by the callback: its tag, `l.content_offset()` and
`l.content().len()` (`main.rs` lines 129-131). -/
structure DiffLine where
  origin : DiffLineType
  contentOffset : Nat
  len : Nat
deriving DecidableEq, Repr

/-- The tracked half-open byte span.  `start` and `stop` model the Rust
variables `start` and `end` (`end` is a Lean keyword). -/
structure Span where
  start : Int
  stop : Int
deriving DecidableEq, Repr

/-- Body of the diff-line callback for one line (`main.rs` lines 132-150):
the comparisons use the original bounds `start`/`stop`, the accumulator is
the pair `(start_move, end_move)`. -/
def applyLine (start stop : Int) (acc : Int × Int) (l : DiffLine) : Int × Int :=
  match l.origin with
  | .addition =>
      (if start > (l.contentOffset : Int) then acc.1 + (l.len : Int) else acc.1,
       if stop > (l.contentOffset : Int) then acc.2 + (l.len : Int) else acc.2)
  | .deletion =>
      (if start > (l.contentOffset : Int) then acc.1 - (l.len : Int) else acc.1,
       if stop > (l.contentOffset : Int) then acc.2 - (l.len : Int) else acc.2)
  | .context => acc

/-- The callback applied to the successive diff lines: the accumulated
moves of the lines the callback saw.  After a line is processed the
callback returns `content_offset <= end` (`main.rs` line 151); a `false`
return ends the enumeration, so lines after the first line whose offset
exceeds `stop` are never seen.  The `false` return additionally makes the
surrounding `diff_blobs` call report an error; that outcome is modelled
separately by `diffAborts` and `translateChecked` below. -/
def translateLines (start stop : Int) : List DiffLine → Int × Int → Int × Int
  | [], acc => acc
  | l :: ls, acc =>
      if (l.contentOffset : Int) ≤ stop then
        translateLines start stop ls (applyLine start stop acc l)
      else
        applyLine start stop acc l

/-- Translation of a span through one revision diff: run the callback over
the diff lines starting from `(start, end)` and read back the moved bounds
(`main.rs` lines 115-158). -/
def translate (s : Span) (lines : List DiffLine) : Span :=
  ⟨(translateLines s.start s.stop lines (s.start, s.stop)).1,
   (translateLines s.start s.stop lines (s.start, s.stop)).2⟩

/-- Whether the line enumeration is cut short by the callback: the callback
returns `false` at the first line with `content_offset > end`
(`main.rs` line 151), so the enumeration aborts iff some line of the diff
lies beyond `stop`. -/
def diffAborts (stop : Int) (ls : List DiffLine) : Bool :=
  ls.any (fun l => decide (stop < (l.contentOffset : Int)))

/-- The outcome of one whole `diff_blobs` call as `tracking` sees it
(`main.rs` lines 119-153): when the callback returns `false` for some line,
git2 turns the non-zero callback return into an error that `?` propagates —
the span is never updated; otherwise the call succeeds and the moved span
is read back. -/
def translateChecked (s : Span) (ls : List DiffLine) : Except String Span :=
  if diffAborts s.stop ls then
    Except.error "diff_blobs aborted by callback"
  else
    Except.ok (translate s ls)

/-- Deletion-shift contributed by one line against the bound `b`:
the length subtracted from the moving copy of `b` when the line is a
deletion lying before `b`. -/
def delContrib (b : Int) (l : DiffLine) : Int :=
  match l.origin with
  | .deletion => if b > (l.contentOffset : Int) then (l.len : Int) else 0
  | _ => 0

/-- Total deletion length counted against the bound `b` over a line list. -/
def delBefore (b : Int) : List DiffLine → Int
  | [] => 0
  | l :: ls => delContrib b l + delBefore b ls

/-- Net shift one line applies to the moving copy of the bound `b`. -/
def lineShift (b : Int) (l : DiffLine) : Int :=
  match l.origin with
  | .addition => if b > (l.contentOffset : Int) then (l.len : Int) else 0
  | .deletion => if b > (l.contentOffset : Int) then -(l.len : Int) else 0
  | .context => 0

/-- What `tracking` records per commit: `curr.id()` (modelled as a number)
and `curr.time()`, a `git2::Time` carrying whole seconds and a timezone
offset in minutes (`main.rs` line 194). -/
structure ChangeVal where
  oid : Nat
  seconds : Int
  tzOffset : Int
deriving DecidableEq, Repr

/-- One relevant commit as the walk consumes it: identity, time, and the
content of the tracked file in its tree (the blob `extract_blob` resolves). -/
structure CommitData where
  oid : Nat
  seconds : Int
  tzOffset : Int
  content : String
deriving DecidableEq, Repr

/-- The byte slice `&content[start..end]` (`main.rs` line 166), on the
ASCII contents used here (one char = one byte).  The Lean version is total
where the Rust slice would panic out of bounds; every use in this file is
in bounds. -/
def sliceStr (content : String) (a b : Int) : String :=
  String.mk ((content.toList.take b.toNat).drop a.toNat)

/-- `HashMap::insert` on the association-list model of `changes`
(`main.rs` lines 192-195): overwrite the value of an existing key, append a
new key. -/
def insertA (m : List (String × ChangeVal)) (k : String) (v : ChangeVal) :
    List (String × ChangeVal) :=
  match m with
  | [] => [(k, v)]
  | (k', v') :: rest => if k' = k then (k, v) :: rest else (k', v') :: insertA rest k v

/-- Lookup in the association-list model. -/
def lookupA (m : List (String × ChangeVal)) (k : String) : Option ChangeVal :=
  match m with
  | [] => none
  | (k', v') :: rest => if k' = k then some v' else lookupA rest k

/-- The value carried by the last observation of the signature `k` in an
observation sequence (the occurrence processed last in the loop). -/
def lastObs (obs : List (String × ChangeVal)) (k : String) : Option ChangeVal :=
  obs.foldl (fun acc p => if p.1 = k then some p.2 else acc) none

/-- Folding a whole observation sequence into the `changes` map, as the
`for` loop of `tracking` does one `insert` at a time. -/
def collectChanges (obs : List (String × ChangeVal)) : List (String × ChangeVal) :=
  obs.foldl (fun m p => insertA m p.1 p.2) []

/-- The sort key of `sorted_unstable_by_key(|(_, (_, time))| time.seconds())`
(`main.rs` line 202): only the whole-second component of the recorded time. -/
def secLE (a b : String × ChangeVal) : Prop :=
  a.2.seconds ≤ b.2.seconds

instance : DecidableRel secLE :=
  fun a b => inferInstanceAs (Decidable (a.2.seconds ≤ b.2.seconds))

instance : IsTotal (String × ChangeVal) secLE :=
  ⟨fun a b => Int.le_total a.2.seconds b.2.seconds⟩

instance : IsTrans (String × ChangeVal) secLE :=
  ⟨fun _ _ _ h1 h2 => le_trans h1 h2⟩

/-- Sorting the collected entries ascending by recorded seconds
(`main.rs` lines 200-202). -/
def sortBySeconds (m : List (String × ChangeVal)) : List (String × ChangeVal) :=
  List.insertionSort secLE m

/-- The emitted report: the sorted entries mapped to their signature keys
(`main.rs` lines 200-204). -/
def finalize (m : List (String × ChangeVal)) : List String :=
  (sortBySeconds m).map Prod.fst

/-- The `for curr in commits` walk of `tracking` (`main.rs` lines 112-198):
translate the span through the diff from the previous (newer) blob to the
current (older) blob, stop successfully on collapse, slice and parse the
snippet — a parse failure aborts with the snippet attached as context
(`main.rs` line 167) — record the signature, and continue with the current
blob as the new baseline.  The repository diff and the structural parser are
the external collaborators `diffFn` and `parseFn`. -/
def trackLoop (diffFn : String → String → List DiffLine)
    (parseFn : String → Except String String) :
    List CommitData → String → Span → List (String × ChangeVal) →
    Except String (List (String × ChangeVal))
  | [], _, _, changes => Except.ok changes
  | curr :: rest, prevContent, span, changes =>
      let span2 := translate span (diffFn prevContent curr.content)
      if span2.stop ≤ span2.start then
        Except.ok changes
      else
        let snippet := sliceStr curr.content span2.start span2.stop
        match parseFn snippet with
        | Except.error msg => Except.error (snippet ++ ": " ++ msg)
        | Except.ok sig =>
            trackLoop diffFn parseFn rest curr.content span2
              (insertA changes sig ⟨curr.oid, curr.seconds, curr.tzOffset⟩)

/-- The whole `tracking` operation (`main.rs` lines 66-210) over the
already-selected relevant commits, newest first: the first commit is only
the diff baseline (`main.rs` lines 105-106), the loop walks the rest, and
the collected map is sorted into the report. -/
def tracking (diffFn : String → String → List DiffLine)
    (parseFn : String → Except String String)
    (commits : List CommitData) (start stop : Int) :
    Except String (List String) :=
  match commits with
  | [] => Except.error "rel sad"
  | prev :: rest =>
      match trackLoop diffFn parseFn rest prev.content ⟨start, stop⟩ [] with
      | Except.error e => Except.error e
      | Except.ok changes => Except.ok (finalize changes)

/-- One commit as the revision selector sees it: identity, parent list
and whether the pathspec matches its tree (the root-commit test
`ps.match_tree(..., NO_MATCH_ERROR).ok()` at `main.rs` lines 89-92). -/
structure CommitNode where
  oid : Nat
  parentIds : List Nat
  pathMatches : Bool
deriving DecidableEq, Repr

/-- The `filter_map` closure of the revision selector (`main.rs` lines
83-101).  `diffWithParent c p` is the collaborator call `match_with_parent`
(`main.rs` lines 56-64): `Except.ok b` when the path-restricted diff between
the trees was computed and is non-empty iff `b`, `Except.error _` when the
diff lookup failed.  The closure applies `unwrap_or(false)`
(`main.rs` line 97), modelled by `toOption.getD false`. -/
def relevantFilter (diffWithParent : CommitNode → Nat → Except String Bool)
    (c : CommitNode) : Option CommitNode :=
  match c.parentIds with
  | [] => if c.pathMatches then some c else none
  | _ :: _ =>
      if c.parentIds.all (fun p => ((diffWithParent c p).toOption.getD false)) then
        some c
      else none

/-- The relevant-commit sequence: the revwalk output filtered through the
closure (`main.rs` line 83). -/
def selectRelevant (diffWithParent : CommitNode → Nat → Except String Bool)
    (nodes : List CommitNode) : List CommitNode :=
  nodes.filterMap (relevantFilter diffWithParent)

/-- A diff collaborator whose tree/diff lookup always fails. -/
def badDiff : CommitNode → Nat → Except String Bool :=
  fun _ _ => Except.error "diff lookup failed"

/-- The components of a collected entry the report can depend on:
signature and whole seconds (`main.rs` lines 202-203 use only these). -/
def projSig (e : String × ChangeVal) : String × Int :=
  (e.1, e.2.seconds)

/-- The sort key relation carried over to the projected entries. -/
def projLE (a b : String × Int) : Prop :=
  a.2 ≤ b.2

instance : DecidableRel projLE :=
  fun a b => inferInstanceAs (Decidable (a.2 ≤ b.2))

/-! ### The three-commit end-to-end scenario of C4

Contents of the tracked file at the three relevant commits, oldest first
named `c1content`, `c2content`, `c3content` (the commits C1, C2, C3 of the
claim).  All bytes are ASCII; the struct occupies bytes 0-35 of the head
content. -/

def c1content : String := "struct Foobar \x7b\na: int,\n\x7d\n"

def c2content : String := "struct Foobar \x7b\na: int,\nb: string,\n\x7d\n"

def c3content : String := "struct Foobar \x7b\na: int,\nc: string,\n\x7d\n"

/-- Signature of the C1 shape, as the external parser normalizes it. -/
def sigA : String := "a : int"

/-- Signature of the C2 shape. -/
def sigB : String := "a : int , b : string"

/-- Signature of the C3 shape. -/
def sigC : String := "a : int , c : string"

/-- The diff collaborator for the scenario, giving exactly the line-level
diff (zero context lines) that `diff_blobs(prev, curr)` yields for the two
adjacent pairs: replacing the 11-byte line at offset 24 (C3 to C2), and
deleting the 11-byte line at offset 24 (C2 to C1). -/
def scenarioDiff (oldC newC : String) : List DiffLine :=
  if oldC = c3content ∧ newC = c2content then
    [⟨.deletion, 24, 11⟩, ⟨.addition, 24, 11⟩]
  else if oldC = c2content ∧ newC = c1content then
    [⟨.deletion, 24, 11⟩]
  else []

/-- The structural-parser collaborator for the scenario: it accepts the
three struct snippets and normalizes their field lists. -/
def scenarioParse (snippet : String) : Except String String :=
  if snippet = "struct Foobar \x7b\na: int,\n\x7d" then Except.ok sigA
  else if snippet = "struct Foobar \x7b\na: int,\nb: string,\n\x7d" then Except.ok sigB
  else if snippet = "struct Foobar \x7b\na: int,\nc: string,\n\x7d" then Except.ok sigC
  else Except.error "expected struct"

def commitOne : CommitData := ⟨1, 100, 0, c1content⟩

def commitTwo : CommitData := ⟨2, 200, 0, c2content⟩

def commitThree : CommitData := ⟨3, 300, 0, c3content⟩

/-- The scenario run: head span `[0, 36)` covering `struct Foobar` in the
head content, commits newest first. -/
def scenarioRun : Except String (List String) :=
  tracking scenarioDiff scenarioParse [commitThree, commitTwo, commitOne] 0 36

/-! ## Lemmas about the span translator -/

lemma applyLine_fst (s e : Int) (acc : Int × Int) (l : DiffLine) :
    (applyLine s e acc l).1 = acc.1 + lineShift s l := by
  rcases l with ⟨o, off, len⟩
  cases o <;> simp [applyLine, lineShift] <;> split_ifs <;> omega

lemma lineShift_ge (b : Int) (l : DiffLine) : -(delContrib b l) ≤ lineShift b l := by
  rcases l with ⟨o, off, len⟩
  cases o <;> simp [delContrib, lineShift] <;> split_ifs <;> omega

lemma delContrib_nonneg (b : Int) (l : DiffLine) : 0 ≤ delContrib b l := by
  rcases l with ⟨o, off, len⟩
  cases o <;> simp [delContrib] <;> split_ifs <;> omega

lemma delBefore_nonneg (b : Int) (ls : List DiffLine) : 0 ≤ delBefore b ls := by
  induction ls with
  | nil => simp [delBefore]
  | cons l ls ih =>
      have := delContrib_nonneg b l
      simp only [delBefore]
      linarith

lemma translateLines_fst_ge (s e : Int) (ls : List DiffLine) :
    ∀ acc : Int × Int, acc.1 - delBefore s ls ≤ (translateLines s e ls acc).1 := by
  induction ls with
  | nil => intro acc; simp [translateLines, delBefore]
  | cons l ls ih =>
      intro acc
      have h1 := lineShift_ge s l
      have h2 := delBefore_nonneg s ls
      have h4 := applyLine_fst s e acc l
      simp only [translateLines, delBefore]
      split
      · have h3 := ih (applyLine s e acc l)
        linarith
      · linarith

lemma applyLine_snd (s e : Int) (acc : Int × Int) (l : DiffLine) :
    (applyLine s e acc l).2 = acc.2 + lineShift e l := by
  rcases l with ⟨o, off, len⟩
  cases o <;> simp [applyLine, lineShift] <;> split_ifs <;> omega

lemma translateLines_snd_ge (s e : Int) (ls : List DiffLine) :
    ∀ acc : Int × Int, acc.2 - delBefore e ls ≤ (translateLines s e ls acc).2 := by
  induction ls with
  | nil => intro acc; simp [translateLines, delBefore]
  | cons l ls ih =>
      intro acc
      have h1 := lineShift_ge e l
      have h2 := delBefore_nonneg e ls
      have h4 := applyLine_snd s e acc l
      simp only [translateLines, delBefore]
      split
      · have h3 := ih (applyLine s e acc l)
        linarith
      · linarith

lemma delBefore_append (b : Int) (l1 l2 : List DiffLine) :
    delBefore b (l1 ++ l2) = delBefore b l1 + delBefore b l2 := by
  induction l1 with
  | nil => simp [delBefore]
  | cons x xs ih =>
      simp only [List.cons_append, delBefore, List.append_eq]
      rw [ih]
      ring

lemma delBefore_take_le (b : Int) (ls : List DiffLine) (n : Nat) :
    delBefore b (ls.take n) ≤ delBefore b ls := by
  have h1 : delBefore b ls = delBefore b (ls.take n) + delBefore b (ls.drop n) := by
    rw [← delBefore_append, List.take_append_drop]
  have h2 := delBefore_nonneg b (ls.drop n)
  linarith

/-! ## C1: the span-translation invariant -/

/-- **C1** — counterexample.  The claim asserts that for every span with
`0 <= start <= end` and every hunk sequence, the translated span satisfies
`0 <= start' <= end'` or the collapse signal `end' <= start'`, and in
particular that the deletion subtraction never takes a bound below zero.
For the span `[5, 10)` and a single deletion line of 20 bytes at offset 0
(a deleted region that starts before the span and covers it), the code
computes `start' = 5 - 20 = -15` and `end' = 10 - 20 = -10`: `start'` is
negative (the `usize` subtraction at `main.rs` line 143 underflows) and
`end' <= start'` fails, so the claimed disjunction is false. -/
theorem c1_span_invariant_counterexample :
    ¬ ((0 ≤ (translate ⟨5, 10⟩ [⟨.deletion, 0, 20⟩]).start ∧
        (translate ⟨5, 10⟩ [⟨.deletion, 0, 20⟩]).start ≤
          (translate ⟨5, 10⟩ [⟨.deletion, 0, 20⟩]).stop) ∨
       (translate ⟨5, 10⟩ [⟨.deletion, 0, 20⟩]).stop ≤
         (translate ⟨5, 10⟩ [⟨.deletion, 0, 20⟩]).start) := by decide

/-- **C1** — amended claim, proved.  For a span with `0 <= start <= end` and
a hunk sequence such that (a) every enumerated line lies at an offset
`<= end`, so the callback never returns `false` and the `diff_blobs` call
completes instead of erroring, (b) the total byte length of deletion lines
at offsets strictly below `start` is at most `start`, and (c) the total
byte length of deletion lines at offsets strictly below `end` is at most
`end` — (b) and (c) hold in particular when every deletion hunk lies wholly
before the bound it precedes — the translation succeeds, after every prefix
of processed lines both moving bounds are still non-negative (so no `usize`
subtraction at `main.rs` lines 143/146 ever takes a bound below zero and
the `Int` model coincides with the program step by step), and the final
span satisfies `0 <= start' <= end'` or is the explicit collapse signal
`end' <= start'`. -/
theorem c1_span_invariant_amended (s : Span) (ls : List DiffLine)
    (h0 : 0 ≤ s.start) (h1 : s.start ≤ s.stop)
    (hds : delBefore s.start ls ≤ s.start)
    (hde : delBefore s.stop ls ≤ s.stop)
    (hcomplete : diffAborts s.stop ls = false) :
    translateChecked s ls = Except.ok (translate s ls) ∧
    (∀ n : Nat,
      0 ≤ (translateLines s.start s.stop (ls.take n) (s.start, s.stop)).1 ∧
      0 ≤ (translateLines s.start s.stop (ls.take n) (s.start, s.stop)).2) ∧
    ((0 ≤ (translate s ls).start ∧ (translate s ls).start ≤ (translate s ls).stop) ∨
     (translate s ls).stop ≤ (translate s ls).start) := by
  refine ⟨by simp [translateChecked, hcomplete], ?_, ?_⟩
  · intro n
    have hf := translateLines_fst_ge s.start s.stop (ls.take n) (s.start, s.stop)
    have hs := translateLines_snd_ge s.start s.stop (ls.take n) (s.start, s.stop)
    have ht1 := delBefore_take_le s.start ls n
    have ht2 := delBefore_take_le s.stop ls n
    constructor
    · simp only at hf
      linarith
    · simp only at hs
      linarith
  · rcases le_total (translate s ls).start (translate s ls).stop with hle | hge
    · left
      refine ⟨?_, hle⟩
      have hfull := translateLines_fst_ge s.start s.stop ls (s.start, s.stop)
      have heq : (translate s ls).start =
          (translateLines s.start s.stop ls (s.start, s.stop)).1 := rfl
      rw [heq]
      simp only at hfull
      linarith
    · right
      exact hge

/-- Witness for the amended C1 theorem at a concrete input: span `[5, 10)`,
one 3-byte deletion at offset 0 (3 ≤ 5 and 3 ≤ 10, offset 0 ≤ 10, so every
hypothesis holds). -/
theorem c1_span_invariant_amended_witness :
    translateChecked ⟨5, 10⟩ [⟨.deletion, 0, 3⟩] =
      Except.ok (translate ⟨5, 10⟩ [⟨.deletion, 0, 3⟩]) ∧
    (0 ≤ (translateLines 5 10 ([⟨.deletion, 0, 3⟩].take 1) (5, 10)).1 ∧
     0 ≤ (translateLines 5 10 ([⟨.deletion, 0, 3⟩].take 1) (5, 10)).2) ∧
    ((0 ≤ (translate ⟨5, 10⟩ [⟨.deletion, 0, 3⟩]).start ∧
      (translate ⟨5, 10⟩ [⟨.deletion, 0, 3⟩]).start ≤
        (translate ⟨5, 10⟩ [⟨.deletion, 0, 3⟩]).stop) ∨
     (translate ⟨5, 10⟩ [⟨.deletion, 0, 3⟩]).stop ≤
       (translate ⟨5, 10⟩ [⟨.deletion, 0, 3⟩]).start) :=
  have h := c1_span_invariant_amended ⟨5, 10⟩ [⟨.deletion, 0, 3⟩]
    (by decide) (by decide) (by decide) (by decide) (by decide)
  ⟨h.1, h.2.1 1, h.2.2⟩

/-! ## C2: monotonic offset correction -/

/-- **C2** — counterexample.  The claim asserts that translating a span
through a single hunk lying strictly after `end` leaves both bounds
unchanged (and the walk proceeds).  For the span `[0, 10)` and a deletion
line at offset 15 the callback returns `false` (`15 <= 10` fails,
`main.rs` line 151), git2 turns that into an error and the `?` at
`main.rs` line 153 aborts the walk: the `diff_blobs` call yields an error,
not an unchanged span. -/
theorem c2_after_end_counterexample :
    translateChecked ⟨0, 10⟩ [⟨.deletion, 15, 4⟩] =
      Except.error "diff_blobs aborted by callback" ∧
    translateChecked ⟨0, 10⟩ [⟨.deletion, 15, 4⟩] ≠
      Except.ok ⟨0, 10⟩ := by
  constructor
  · rfl
  · intro h
    have h0 : translateChecked ⟨0, 10⟩ [⟨.deletion, 15, 4⟩] =
        Except.error "diff_blobs aborted by callback" := rfl
    rw [h0] at h
    exact Except.noConfusion h

/-- **C2** — amended claim, proved.  For a span `[s, e)` with
`0 <= s <= e`: a single addition line at an offset strictly below `s`
makes the `diff_blobs` call succeed and raises both bounds by exactly its
length; a single deletion line at an offset strictly below `s` whose
length does not exceed `s` (in particular any deletion hunk wholly before
the span) succeeds and lowers both bounds by exactly its length, both
staying non-negative (no `usize` underflow); a single line of any tag at
an offset strictly beyond `e` shifts neither moving bound, but the
callback's `false` return makes the `diff_blobs` call report an error
that `?` propagates (`main.rs` lines 151-153), so the walk aborts instead
of continuing with the unchanged span. -/
theorem c2_monotonic_offset_correction_amended (s e : Int) (off len : Nat)
    (h0 : 0 ≤ s) (hse : s ≤ e) :
    ((off : Int) < s →
      translateChecked ⟨s, e⟩ [⟨.addition, off, len⟩] = Except.ok ⟨s + len, e + len⟩ ∧
      ((len : Int) ≤ s →
        translateChecked ⟨s, e⟩ [⟨.deletion, off, len⟩] = Except.ok ⟨s - len, e - len⟩ ∧
        0 ≤ s - (len : Int) ∧ 0 ≤ e - (len : Int))) ∧
    (∀ o : DiffLineType, e < (off : Int) →
      translate ⟨s, e⟩ [⟨o, off, len⟩] = ⟨s, e⟩ ∧
      translateChecked ⟨s, e⟩ [⟨o, off, len⟩] =
        Except.error "diff_blobs aborted by callback") := by
  constructor
  · intro hlt
    have h1 : s > (off : Int) := hlt
    have h2 : e > (off : Int) := by omega
    have h3 : (off : Int) ≤ e := by omega
    have hna : ∀ o : DiffLineType, diffAborts e [⟨o, off, len⟩] = false := by
      intro o
      simp [diffAborts]
      omega
    constructor
    · simp [translateChecked, hna, translate, translateLines, applyLine, h1, h2, h3]
    · intro hlen
      refine ⟨?_, by omega, by omega⟩
      simp [translateChecked, hna, translate, translateLines, applyLine, h1, h2, h3]
  · intro o hgt
    have h1 : ¬ s > (off : Int) := by omega
    have h2 : ¬ e > (off : Int) := by omega
    have h3 : ¬ ((off : Int) ≤ e) := by omega
    have hab : diffAborts e [⟨o, off, len⟩] = true := by
      simp [diffAborts]
      omega
    constructor
    · cases o <;> simp [translate, translateLines, applyLine, h1, h2, h3]
    · simp [translateChecked, hab]

/-- Witness for the amended C2 theorem at concrete inputs: span `[10, 20)`
with a hunk of length 7 at offset 3 (before the span: both tags shift, the
call succeeds) and an addition at offset 25 (after the span: no shift, the
call errors). -/
theorem c2_monotonic_offset_correction_amended_witness :
    translateChecked ⟨10, 20⟩ [⟨.addition, 3, 7⟩] = Except.ok ⟨17, 27⟩ ∧
    translateChecked ⟨10, 20⟩ [⟨.deletion, 3, 7⟩] = Except.ok ⟨3, 13⟩ ∧
    translate ⟨10, 20⟩ [⟨.addition, 25, 7⟩] = ⟨10, 20⟩ ∧
    translateChecked ⟨10, 20⟩ [⟨.addition, 25, 7⟩] =
      Except.error "diff_blobs aborted by callback" :=
  have ha := c2_monotonic_offset_correction_amended 10 20 3 7 (by decide) (by decide)
  have hb := c2_monotonic_offset_correction_amended 10 20 25 7 (by decide) (by decide)
  ⟨(ha.1 (by decide)).1,
   ((ha.1 (by decide)).2 (by decide)).1,
   (hb.2 DiffLineType.addition (by decide)).1,
   (hb.2 DiffLineType.addition (by decide)).2⟩

/-! ## C3: hunks at the exact upper boundary -/

/-- **C3** — counterexample.  The claim asserts that a hunk whose byte offset
equals exactly `end` shifts `end` by the hunk length (inclusive comparison at
the upper bound).  For the span `[0, 10)` and an addition line of 5 bytes at
offset exactly 10, the code leaves `end' = 10` (the shift comparison at
`main.rs` line 137 is strict `end > content_offset`), not `10 + 5`. -/
theorem c3_boundary_hunk_counterexample :
    (translate ⟨0, 10⟩ [⟨.addition, 10, 5⟩]).stop = 10 ∧ (10 : Int) ≠ 10 + 5 := by decide

/-- **C3** — amended claim, proved.  A hunk at offset exactly `end` is still
visited by the hunk walk — the loop-continuation comparison
`content_offset <= end` (`main.rs` line 151) is inclusive, so processing
continues past it — but it shifts neither bound: both shift comparisons are
strict, so only hunks at offsets strictly below a bound move that bound. -/
theorem c3_boundary_hunk_amended (s e : Int) (o : DiffLineType) (off len : Nat)
    (hse : s ≤ e) (hoff : (off : Int) = e) :
    translate ⟨s, e⟩ [⟨o, off, len⟩] = ⟨s, e⟩ ∧
    ∀ rest : List DiffLine,
      translate ⟨s, e⟩ (⟨o, off, len⟩ :: rest) = translate ⟨s, e⟩ rest := by
  have h1 : ¬ s > (off : Int) := by omega
  have h2 : ¬ e > (off : Int) := by omega
  have h3 : (off : Int) ≤ e := by omega
  have happ : applyLine s e (s, e) ⟨o, off, len⟩ = (s, e) := by
    cases o <;> simp [applyLine, h1, h2]
  constructor
  · simp [translate, translateLines, h3, happ]
  · intro rest
    simp [translate, translateLines, h3, happ]

/-- Witness for the amended C3 theorem: a line at offset exactly `end = 5`
leaves the span `[0, 5)` unchanged, and a deletion line before the span that
follows it is still processed (the walk does not stop at the boundary line). -/
theorem c3_boundary_hunk_amended_witness :
    translate ⟨0, 5⟩ [⟨.context, 5, 3⟩] = ⟨0, 5⟩ ∧
    translate ⟨0, 5⟩ (⟨.addition, 5, 3⟩ :: [⟨.deletion, 0, 2⟩]) =
      translate ⟨0, 5⟩ [⟨.deletion, 0, 2⟩] :=
  ⟨(c3_boundary_hunk_amended 0 5 DiffLineType.context 5 3 (by decide) (by decide)).1,
   (c3_boundary_hunk_amended 0 5 DiffLineType.addition 5 3 (by decide) (by decide)).2
     [⟨.deletion, 0, 2⟩]⟩

/-! ## C4: the three-commit end-to-end scenario -/

/-- **C4** — counterexample.  The claim expects the report
`[sigA, sigB, sigC]` (the newest relevant commit contributing its own
shape).  The code never parses the head commit itself: the first relevant
commit is consumed as the diff baseline only (`main.rs` lines 105-106) and
the loop records the shapes of the older commits, so the run emits exactly
`[sigA, sigB]` and the head shape `sigC` is absent. -/
theorem c4_end_to_end_counterexample :
    scenarioRun = Except.ok [sigA, sigB] ∧
    scenarioRun ≠ Except.ok [sigA, sigB, sigC] := by
  constructor
  · rfl
  · intro h
    have h0 : scenarioRun = Except.ok [sigA, sigB] := rfl
    rw [h0] at h
    injection h with h1
    simp [sigA, sigB, sigC] at h1

/-- **C4** — amended claim, proved.  On the three-commit scenario the
emitted report is exactly the two signatures ordered by time, `sigA`
attributed to commit C1 (oid 1, time 100) and `sigB` attributed to commit
C2 (oid 2, time 200); the newest relevant commit C3 is only the diff
baseline and its own shape is not included. -/
theorem c4_end_to_end_amended :
    trackLoop scenarioDiff scenarioParse [commitTwo, commitOne] c3content ⟨0, 36⟩ [] =
      Except.ok [(sigB, ⟨2, 200, 0⟩), (sigA, ⟨1, 100, 0⟩)] ∧
    scenarioRun = Except.ok [sigA, sigB] :=
  ⟨rfl, rfl⟩

/-! ## Lemmas about the change collector -/

lemma lookupA_insertA (m : List (String × ChangeVal)) (k kI : String) (v : ChangeVal) :
    lookupA (insertA m kI v) k = if kI = k then some v else lookupA m k := by
  induction m with
  | nil => simp [insertA, lookupA]
  | cons p rest ih =>
      rcases p with ⟨a, b⟩
      by_cases h1 : a = kI
      · subst h1
        by_cases h2 : a = k <;> simp [insertA, lookupA, h2]
      · by_cases h2 : kI = k
        · subst h2
          simp [insertA, lookupA, h1, ih]
        · by_cases h3 : a = k
          · subst h3
            simp [insertA, lookupA, h1, h2]
          · simp [insertA, lookupA, h1, h2, h3, ih]

lemma lookupA_foldl (k : String) (obs : List (String × ChangeVal)) :
    ∀ m, lookupA (obs.foldl (fun m p => insertA m p.1 p.2) m) k =
      obs.foldl (fun acc p => if p.1 = k then some p.2 else acc) (lookupA m k) := by
  induction obs with
  | nil => intro m; rfl
  | cons p obs ih =>
      intro m
      simp only [List.foldl_cons]
      rw [ih, lookupA_insertA]

lemma lookupA_collect (obs : List (String × ChangeVal)) (k : String) :
    lookupA (collectChanges obs) k = lastObs obs k := by
  have h := lookupA_foldl k obs []
  simpa [collectChanges, lastObs, lookupA] using h

lemma mem_keys_insertA (m : List (String × ChangeVal)) (kI : String) (v : ChangeVal)
    (a : String) :
    a ∈ (insertA m kI v).map Prod.fst ↔ a = kI ∨ a ∈ m.map Prod.fst := by
  induction m with
  | nil => simp [insertA]
  | cons p rest ih =>
      rcases p with ⟨b, c⟩
      by_cases h : b = kI
      · subst h
        have hins : insertA ((b, c) :: rest) b v = (b, v) :: rest := by
          simp [insertA]
        rw [hins]
        simp only [List.map_cons, List.mem_cons]
        tauto
      · have hins : insertA ((b, c) :: rest) kI v = (b, c) :: insertA rest kI v := by
          simp [insertA, h]
        rw [hins]
        simp only [List.map_cons, List.mem_cons, ih]
        tauto

lemma keys_nodup_insertA (m : List (String × ChangeVal)) (kI : String) (v : ChangeVal)
    (h : (m.map Prod.fst).Nodup) : ((insertA m kI v).map Prod.fst).Nodup := by
  induction m with
  | nil => simp [insertA]
  | cons p rest ih =>
      rcases p with ⟨b, c⟩
      simp only [List.map_cons, List.nodup_cons] at h
      by_cases hb : b = kI
      · subst hb
        simpa [insertA, List.nodup_cons] using h
      · simp only [insertA, hb, if_false, List.map_cons, List.nodup_cons]
        refine ⟨?_, ih h.2⟩
        rw [mem_keys_insertA]
        push_neg
        exact ⟨hb, h.1⟩

lemma keys_nodup_foldl (obs : List (String × ChangeVal)) :
    ∀ m, (m.map Prod.fst).Nodup →
      (((obs.foldl (fun m p => insertA m p.1 p.2) m)).map Prod.fst).Nodup := by
  induction obs with
  | nil => intro m hm; simpa using hm
  | cons p obs ih =>
      intro m hm
      simp only [List.foldl_cons]
      exact ih _ (keys_nodup_insertA m p.1 p.2 hm)

lemma keys_nodup_collect (obs : List (String × ChangeVal)) :
    ((collectChanges obs).map Prod.fst).Nodup :=
  keys_nodup_foldl obs [] (by simp)

lemma mem_keys_foldl (a : String) (obs : List (String × ChangeVal)) :
    ∀ m, (a ∈ ((obs.foldl (fun m p => insertA m p.1 p.2) m)).map Prod.fst ↔
      a ∈ m.map Prod.fst ∨ a ∈ obs.map Prod.fst) := by
  induction obs with
  | nil => intro m; simp
  | cons p obs ih =>
      intro m
      simp only [List.foldl_cons, List.map_cons, List.mem_cons]
      rw [ih, mem_keys_insertA]
      tauto

lemma mem_keys_collect (obs : List (String × ChangeVal)) (a : String) :
    a ∈ (collectChanges obs).map Prod.fst ↔ a ∈ obs.map Prod.fst := by
  have h := mem_keys_foldl a obs []
  simpa [collectChanges] using h

/-! ## C5: deduplication and overwrite policy -/

/-- **C5** — confirmed.  For every observation sequence produced by the
newest-to-oldest walk: the collected map records, for each signature, the
commit value of the occurrence processed last in the loop (`lastObs`; with
a newest-first traversal that is the oldest repeat); the report never lists
a signature twice; the sorted entries are ascending in the recorded
whole-second time; and the report lists exactly the observed signatures. -/
theorem c5_dedup_overwrite (obs : List (String × ChangeVal)) (k : String) :
    lookupA (collectChanges obs) k = lastObs obs k ∧
    (finalize (collectChanges obs)).Nodup ∧
    List.Sorted secLE (sortBySeconds (collectChanges obs)) ∧
    (k ∈ finalize (collectChanges obs) ↔ k ∈ obs.map Prod.fst) := by
  have hperm : List.Perm (sortBySeconds (collectChanges obs)) (collectChanges obs) :=
    List.perm_insertionSort secLE (collectChanges obs)
  have hmap : List.Perm (finalize (collectChanges obs))
      ((collectChanges obs).map Prod.fst) :=
    hperm.map Prod.fst
  refine ⟨lookupA_collect obs k, ?_, ?_, ?_⟩
  · exact hmap.nodup_iff.mpr (keys_nodup_collect obs)
  · exact List.sorted_insertionSort secLE (collectChanges obs)
  · exact hmap.mem_iff.trans (mem_keys_collect obs k)

/-- Witness for C5 on a concrete observation sequence with a repeated
signature: `s1` is seen at time 300 (newest), `s2` at 200, and `s1` again at
100 (oldest).  The theorem gives the lookup/`lastObs` agreement and the
membership of `s1` in the report; evaluation confirms the recorded value for
`s1` is the one processed last, oid 1 at time 100. -/
theorem c5_dedup_overwrite_witness :
    lookupA (collectChanges
        [("s1", ⟨3, 300, 0⟩), ("s2", ⟨2, 200, 0⟩), ("s1", ⟨1, 100, 0⟩)]) "s1" =
      lastObs [("s1", ⟨3, 300, 0⟩), ("s2", ⟨2, 200, 0⟩), ("s1", ⟨1, 100, 0⟩)] "s1" ∧
    "s1" ∈ finalize (collectChanges
        [("s1", ⟨3, 300, 0⟩), ("s2", ⟨2, 200, 0⟩), ("s1", ⟨1, 100, 0⟩)]) ∧
    lastObs [("s1", ⟨3, 300, 0⟩), ("s2", ⟨2, 200, 0⟩), ("s1", ⟨1, 100, 0⟩)] "s1" =
      some ⟨1, 100, 0⟩ :=
  ⟨(c5_dedup_overwrite
      [("s1", ⟨3, 300, 0⟩), ("s2", ⟨2, 200, 0⟩), ("s1", ⟨1, 100, 0⟩)] "s1").1,
   (c5_dedup_overwrite
      [("s1", ⟨3, 300, 0⟩), ("s2", ⟨2, 200, 0⟩), ("s1", ⟨1, 100, 0⟩)] "s1").2.2.2.mpr
     (by decide),
   by decide⟩

/-! ## C6: span collapse is a normal terminal condition -/

/-- **C6** — confirmed.  If translating the span through the current
revision diff collapses it (`end <= start`), the walk stops at that
revision: for every tail of older commits the loop returns successfully
with exactly the signatures collected so far, and the older commits are
never visited (`main.rs` lines 160-162, 200-209). -/
theorem c6_collapse_stops (diffFn : String → String → List DiffLine)
    (parseFn : String → Except String String) (curr : CommitData)
    (prevContent : String) (span : Span) (changes : List (String × ChangeVal))
    (h : (translate span (diffFn prevContent curr.content)).stop ≤
         (translate span (diffFn prevContent curr.content)).start) :
    ∀ rest : List CommitData,
      trackLoop diffFn parseFn (curr :: rest) prevContent span changes =
        Except.ok changes := by
  intro rest
  simp [trackLoop, h]

/-- Witness for C6: a diff that deletes the whole 10-byte span collapses
`[0, 10)` to `[0, 0)`; the walk returns `ok []` even though an older commit
is still pending. -/
theorem c6_collapse_stops_witness :
    trackLoop (fun _ _ => [⟨.deletion, 0, 10⟩]) Except.ok
      [⟨9, 900, 0, "0123456789"⟩, ⟨8, 800, 0, "older"⟩] "0123456789" ⟨0, 10⟩ [] =
      Except.ok [] :=
  c6_collapse_stops (fun _ _ => [⟨.deletion, 0, 10⟩]) Except.ok ⟨9, 900, 0, "0123456789"⟩
    "0123456789" ⟨0, 10⟩ [] (by decide) [⟨8, 800, 0, "older"⟩]

/-! ## C7: merge-aware relevance rule -/

/-- Converts the `unwrap_or(false)` view of a diff call back to its result. -/
lemma exceptFlag_true (r : Except String Bool) :
    (r.toOption.getD false) = true ↔ r = Except.ok true := by
  cases r with
  | error e => simp [Except.toOption]
  | ok b => cases b <;> simp [Except.toOption]

/-- **C7** — confirmed.  A visited non-root commit is kept by the selector
iff the path-restricted diff against every parent was computed and is
non-empty (`main.rs` lines 93-99 with `match_with_parent`, lines 56-64):
in particular a merge commit identical to at least one parent for the
tracked path is excluded, and a merge commit differing from every parent is
included. -/
theorem c7_relevance_iff (df : CommitNode → Nat → Except String Bool)
    (c : CommitNode) (hnr : c.parentIds ≠ []) :
    relevantFilter df c = some c ↔ ∀ p ∈ c.parentIds, df c p = Except.ok true := by
  rcases c with ⟨oid, pids, pm⟩
  cases pids with
  | nil => simp at hnr
  | cons a as =>
      simp only [relevantFilter]
      by_cases hall :
          (a :: as).all
            (fun p => ((df ⟨oid, a :: as, pm⟩ p).toOption.getD false)) = true
      · rw [if_pos hall]
        rw [List.all_eq_true] at hall
        constructor
        · intro _ p hp
          exact (exceptFlag_true _).mp (hall p hp)
        · intro _
          rfl
      · rw [if_neg hall]
        constructor
        · intro h
          exact absurd h (by simp)
        · intro hforall
          exact absurd (List.all_eq_true.mpr
            (fun p hp => (exceptFlag_true _).mpr (hforall p hp))) hall

/-- Witness for C7: a two-parent merge commit whose diff against both
parents is non-empty is included in the relevant sequence. -/
theorem c7_relevance_iff_witness :
    relevantFilter (fun _ _ => Except.ok true) ⟨5, [1, 2], true⟩ =
      some ⟨5, [1, 2], true⟩ :=
  (c7_relevance_iff (fun _ _ => Except.ok true) ⟨5, [1, 2], true⟩ (by decide)).mpr
    (fun _ _ => rfl)

/-! ## C8: error policy of the revision selector -/

/-- **C8** — counterexample.  The claim says an object-lookup failure during
revision selection is fatal and no visited commit is silently dropped.  With
a diff collaborator that always fails, the commit with oid 2 (one parent) is
mapped to `none` by the selector closure — `match_with_parent(..)` feeds
`unwrap_or(false)` (`main.rs` line 97) — and the selection completes without
any error, yielding only the root commit: the failing commit is silently
dropped. -/
theorem c8_lookup_failure_counterexample :
    relevantFilter badDiff ⟨2, [1], true⟩ = none ∧
    selectRelevant badDiff [⟨2, [1], true⟩, ⟨1, [], true⟩] = [⟨1, [], true⟩] := by
  decide

/-- **C8** — amended claim, proved.  A diff computation failure against any
parent of a visited non-root commit does not propagate: `unwrap_or(false)`
turns it into "no change against this parent", so the commit is silently
excluded from the relevant-commit sequence and the selection reports no
error.  (Commit and tree lookup failures abort through `unwrap` panics
rather than returned errors, `main.rs` lines 85-86, 96.) -/
theorem c8_diff_error_drops (df : CommitNode → Nat → Except String Bool)
    (c : CommitNode) (p : Nat) (msg : String)
    (hp : p ∈ c.parentIds) (he : df c p = Except.error msg) :
    relevantFilter df c = none := by
  rcases c with ⟨oid, pids, pm⟩
  cases pids with
  | nil => simp at hp
  | cons a as =>
      have hall :
          ¬ ((a :: as).all
              (fun q => ((df ⟨oid, a :: as, pm⟩ q).toOption.getD false)) = true) := by
        intro hall
        rw [List.all_eq_true] at hall
        have hx := hall p hp
        rw [he] at hx
        simp [Except.toOption] at hx
      simp only [relevantFilter]
      rw [if_neg hall]

/-- Witness for the amended C8 theorem: a single-parent commit whose diff
lookup fails is excluded. -/
theorem c8_diff_error_drops_witness :
    relevantFilter (fun _ _ => Except.error "boom") ⟨7, [3], true⟩ = none :=
  c8_diff_error_drops (fun _ _ => Except.error "boom") ⟨7, [3], true⟩ 3 "boom"
    (by decide) rfl

/-! ## C9: parse failure is fatal -/

/-- **C9** — confirmed.  If the snippet sliced at the translated span of the
current (older) revision fails structural parsing, the loop returns a fatal
error whose message carries the failing snippet as context (`main.rs` line
167), and the result does not depend on the remaining older commits: none
of them is processed, there is no skip-and-continue. -/
theorem c9_parse_failure_fatal (diffFn : String → String → List DiffLine)
    (parseFn : String → Except String String) (curr : CommitData)
    (prevContent : String) (span span2 : Span)
    (changes : List (String × ChangeVal)) (snippet msg : String)
    (h1 : translate span (diffFn prevContent curr.content) = span2)
    (h2 : ¬ span2.stop ≤ span2.start)
    (h3 : sliceStr curr.content span2.start span2.stop = snippet)
    (h4 : parseFn snippet = Except.error msg) :
    ∀ rest : List CommitData,
      trackLoop diffFn parseFn (curr :: rest) prevContent span changes =
        Except.error (snippet ++ ": " ++ msg) := by
  intro rest
  simp [trackLoop, h1, h2, h3, h4]

/-- Witness for C9: the snippet `bad!` is rejected by the parser; the walk
returns the parse error with the snippet attached, with an older commit
still pending. -/
theorem c9_parse_failure_fatal_witness :
    trackLoop (fun _ _ => []) (fun _ => Except.error "expected struct")
      [⟨4, 400, 0, "bad!"⟩, ⟨5, 500, 0, "older"⟩] "bad!" ⟨0, 4⟩ [] =
      Except.error "bad!: expected struct" :=
  c9_parse_failure_fatal (fun _ _ => []) (fun _ => Except.error "expected struct")
    ⟨4, 400, 0, "bad!"⟩ "bad!" ⟨0, 4⟩ ⟨0, 4⟩ [] "bad!" "expected struct"
    (by decide) (by decide) (by rfl) (by rfl) [⟨5, 500, 0, "older"⟩]

/-! ## C10: the report depends only on signatures and whole seconds,
and ties are order-dependent -/

lemma map_projSig_orderedInsert (x : String × ChangeVal)
    (l : List (String × ChangeVal)) :
    (List.orderedInsert secLE x l).map projSig =
      List.orderedInsert projLE (projSig x) (l.map projSig) := by
  induction l with
  | nil => rfl
  | cons y ys ih =>
      simp only [List.orderedInsert, List.map_cons]
      by_cases h : secLE x y
      · rw [if_pos h, if_pos (show projLE (projSig x) (projSig y) from h)]
        simp
      · rw [if_neg h, if_neg (show ¬ projLE (projSig x) (projSig y) from h)]
        simp [ih]

lemma map_projSig_insertionSort (l : List (String × ChangeVal)) :
    (List.insertionSort secLE l).map projSig =
      List.insertionSort projLE (l.map projSig) := by
  induction l with
  | nil => rfl
  | cons x xs ih =>
      simp only [List.insertionSort, List.map_cons]
      rw [map_projSig_orderedInsert, ih]

lemma fst_projSig_map (l : List (String × ChangeVal)) :
    (l.map projSig).map Prod.fst = l.map Prod.fst := by
  induction l with
  | nil => rfl
  | cons x xs ih => simp [projSig, ih]

/-- **C10** — confirmed.  The final ordering is a function of the
signatures and the whole-second components alone: two entry lists that
agree on `(signature, seconds)` — however their commit ids or timezone
offsets differ — produce identical reports.  And for two distinct
signatures with equal second values the output order follows the iteration
order of the map entries: the same two-entry map enumerated in the two
possible orders yields two different reports, so the report is not a
deterministic function of the repository contents. -/
theorem c10_report_seconds_and_ties :
    (∀ es es' : List (String × ChangeVal),
        es.map projSig = es'.map projSig → finalize es = finalize es') ∧
    ([(("sA" : String), (⟨2, 100, -60⟩ : ChangeVal)), ("sB", ⟨1, 100, 300⟩)].Perm
       [("sB", ⟨1, 100, 300⟩), ("sA", ⟨2, 100, -60⟩)]) ∧
    finalize [("sA", ⟨2, 100, -60⟩), ("sB", ⟨1, 100, 300⟩)] = ["sA", "sB"] ∧
    finalize [("sB", ⟨1, 100, 300⟩), ("sA", ⟨2, 100, -60⟩)] = ["sB", "sA"] ∧
    (["sA", "sB"] : List String) ≠ ["sB", "sA"] := by
  refine ⟨?_, List.Perm.swap _ _ _, rfl, rfl, by decide⟩
  intro es es' h
  have key : ∀ l : List (String × ChangeVal),
      finalize l = (List.insertionSort projLE (l.map projSig)).map Prod.fst := by
    intro l
    have h1 : finalize l = ((List.insertionSort secLE l).map projSig).map Prod.fst := by
      rw [fst_projSig_map]
      rfl
    rw [h1, map_projSig_insertionSort]
  rw [key, key, h]

/-- Witness for C10: changing the commit oid and the timezone offset of an
entry (seconds unchanged) leaves the report identical. -/
theorem c10_report_seconds_and_ties_witness :
    finalize [("sX", ⟨1, 50, 120⟩)] = finalize [("sX", ⟨99, 50, -45⟩)] :=
  c10_report_seconds_and_ties.1 [("sX", ⟨1, 50, 120⟩)] [("sX", ⟨99, 50, -45⟩)]
    (by decide)

end Sandbox
